import Mathlib

/-!
# Verification of the finance-tracker ledger (src/finance-tracker/finance-tracker.js)

Shallow embedding of the `Transaction` and `FinanceTracker` classes.

Modelling conventions:
* JavaScript numbers are idealized as `JSNum`: a finite rational, `NaN`,
  or a signed infinity.  Signed zero is collapsed to `0`.  Arithmetic on
  finite values is exact rational arithmetic.
* A JS `Date` value held inside a `Transaction` is always a valid timestamp
  (the constructor replaces invalid dates), so it is modelled as its
  millisecond value, an integer.  `getFullYear`/`getMonth` are modelled via
  the proleptic Gregorian civil calendar at UTC.
* Mutation of `this` is modelled by explicit state passing: each method of
  `FinanceTracker` returns its result together with the post-state, and a
  method that throws returns `Except.error` together with the state at the
  moment the exception escapes.
* `JSON.stringify`/`JSON.parse` of the transaction array is modelled at the
  structural level: a serialized payload is a `List JsonEntry`, and import
  input is `Option (List JsonEntry)` (`none` standing for text that
  does not parse or does not decode to an array).  A `Date` round-trips
  through ISO-8601 text losslessly at millisecond precision, so the `date`
  field of an entry is `Option ℤ` (`none` standing for a value on which
  `new Date(x)` yields an invalid date).
-/

/-- Idealized JavaScript number. -/
inductive JSNum where
  | num (q : ℚ)
  | nan
  | inf
  | negInf
deriving DecidableEq

namespace JSNum

/-- The JS comparison `x <= 0` (false on `NaN` and `+Infinity`). -/
def le0 : JSNum → Bool
  | num q => q ≤ 0
  | nan => false
  | inf => false
  | negInf => true

/-- JS truthiness of a number: `0` and `NaN` are falsy. -/
def truthy : JSNum → Bool
  | num q => q ≠ 0
  | nan => false
  | inf => true
  | negInf => true

/-- JS subtraction. -/
def sub : JSNum → JSNum → JSNum
  | nan, _ => nan
  | _, nan => nan
  | num a, num b => num (a - b)
  | num _, inf => negInf
  | num _, negInf => inf
  | inf, num _ => inf
  | inf, inf => nan
  | inf, negInf => inf
  | negInf, num _ => negInf
  | negInf, inf => negInf
  | negInf, negInf => nan

/-- JS multiplication (signed zero collapsed to `0`). -/
def mul : JSNum → JSNum → JSNum
  | nan, _ => nan
  | _, nan => nan
  | num a, num b => num (a * b)
  | num a, inf => if a = 0 then nan else if 0 < a then inf else negInf
  | num a, negInf => if a = 0 then nan else if 0 < a then negInf else inf
  | inf, num b => if b = 0 then nan else if 0 < b then inf else negInf
  | negInf, num b => if b = 0 then nan else if 0 < b then negInf else inf
  | inf, inf => inf
  | inf, negInf => negInf
  | negInf, inf => negInf
  | negInf, negInf => inf

/-- JS division (signed zero collapsed to `0`). -/
def div : JSNum → JSNum → JSNum
  | nan, _ => nan
  | _, nan => nan
  | num a, num b =>
      if b = 0 then (if a = 0 then nan else if 0 < a then inf else negInf)
      else num (a / b)
  | num _, inf => num 0
  | num _, negInf => num 0
  | inf, num b => if b < 0 then negInf else inf
  | negInf, num b => if b < 0 then inf else negInf
  | inf, inf => nan
  | inf, negInf => nan
  | negInf, inf => nan
  | negInf, negInf => nan

/-- JS `Math.round`: on a finite value computes `⌊x + 1/2⌋`. -/
def round : JSNum → JSNum
  | num q => num ((⌊q + 1/2⌋ : ℤ) : ℚ)
  | nan => nan
  | inf => inf
  | negInf => negInf

end JSNum

/-- One transaction record, after successful construction.  `date` is the
millisecond timestamp of the (always valid) stored `Date`. -/
structure Transaction where
  id : ℤ
  type : String
  amount : ℚ
  category : String
  description : String
  date : ℤ
deriving DecidableEq

/-- The `Transaction` constructor.  `date` is `some ms` when the supplied
date is a valid `Date`, `none` when it is absent or invalid (then the
current time `now` is substituted); `id` is passed through unvalidated. -/
def Transaction.construct (id : ℤ) (type : String) (amount : JSNum)
    (category description : String) (date : Option ℤ) (now : ℤ) :
    Except String Transaction :=
  if ¬ (type = "income" ∨ type = "expense") then
    .error "[Transaction] 非法 type，必须为 income 或 expense"
  else
    match amount with
    | .num q =>
        if q ≤ 0 then .error "[Transaction] 非法 amount，必须为正数"
        else .ok ⟨id, type, q, category, description, date.getD now⟩
    | _ => .error "[Transaction] 非法 amount，必须为正数"

/-- Insertion-ordered JS object used as a map: setting an existing key
overwrites in place, setting a fresh key appends. -/
def objSet {α : Type} (k : String) (v : α) : List (String × α) → List (String × α)
  | [] => [(k, v)]
  | (k', v') :: rest => if k' = k then (k, v) :: rest else (k', v') :: objSet k v rest

/-- Property read `o[k]` on a JS object: `none` models `undefined`. -/
def objGet {α : Type} (k : String) : List (String × α) → Option α
  | [] => none
  | (k', v) :: rest => if k' = k then some v else objGet k rest

/-- The ledger state: `transactions`, `nextId`, `budgets`. -/
structure FinanceTracker where
  transactions : List Transaction
  nextId : ℤ
  budgets : List (String × JSNum)
deriving DecidableEq

/-- `new FinanceTracker()`. -/
def FinanceTracker.init : FinanceTracker := ⟨[], 1, []⟩

/-- `addTransaction(type, amount, category, description)`.
The argument `this.nextId++` is evaluated (and the field incremented)
before the `Transaction` constructor runs, so a constructor throw leaves
`nextId` already incremented while `transactions` is untouched. -/
def FinanceTracker.addTransaction (l : FinanceTracker) (type : String)
    (amount : JSNum) (category description : String) (now : ℤ) :
    Except String Transaction × FinanceTracker :=
  let idUsed := l.nextId
  let l' : FinanceTracker := { l with nextId := l.nextId + 1 }
  match Transaction.construct idUsed type amount category description none now with
  | .error e => (.error e, l')
  | .ok txn => (.ok txn, { l' with transactions := l'.transactions ++ [txn] })

/-- `findIndex` + `splice(idx, 1)`: remove the first record with the id;
returns whether one was found together with the new list. -/
def removeFirstById (id : ℤ) : List Transaction → Bool × List Transaction
  | [] => (false, [])
  | t :: ts =>
      if t.id = id then (true, ts)
      else
        let r := removeFirstById id ts
        (r.1, t :: r.2)

/-- `deleteTransaction(id)`. -/
def FinanceTracker.deleteTransaction (l : FinanceTracker) (id : ℤ) :
    Bool × FinanceTracker :=
  let r := removeFirstById id l.transactions
  (r.1, { l with transactions := r.2 })

/-- `getTransactionsByCategory(category)`. -/
def FinanceTracker.getTransactionsByCategory (l : FinanceTracker) (category : String) :
    List Transaction :=
  l.transactions.filter (fun t => t.category = category)

/-- `setBudget(category, amount)`: throws when the JS test `amount <= 0`
holds (there is no finiteness check in this method). -/
def FinanceTracker.setBudget (l : FinanceTracker) (category : String) (amount : JSNum) :
    Except String Unit × FinanceTracker :=
  if amount.le0 then (.error "[setBudget] 预算金额必须为正数", l)
  else (.ok (), { l with budgets := objSet category amount l.budgets })

/-- Result record of `checkBudget`. -/
structure BudgetReport where
  budget : JSNum
  spent : ℚ
  remaining : JSNum
  percentage : JSNum
deriving DecidableEq

/-- `checkBudget(category)`.  `this.budgets[category] || 0` yields the
stored value when truthy and `0` otherwise (also when absent). -/
def FinanceTracker.checkBudget (l : FinanceTracker) (category : String) :
    BudgetReport :=
  let budget := match objGet category l.budgets with
    | some v => if v.truthy then v else JSNum.num 0
    | none => JSNum.num 0
  let spent := ((l.getTransactionsByCategory category).filter
      (fun t => t.type = "expense")).foldl (fun s t => s + t.amount) 0
  let remaining := JSNum.sub budget (JSNum.num spent)
  let percentage :=
    if budget.truthy then
      JSNum.round (JSNum.mul (JSNum.div (JSNum.num spent) budget) (JSNum.num 100))
    else JSNum.num 0
  ⟨budget, spent, remaining, percentage⟩

/-- The spec-side validity predicate for a transaction kind. -/
def validType (type : String) : Prop := type = "income" ∨ type = "expense"

/-- The spec-side validity predicate for an amount: a finite number
strictly greater than zero. -/
def validAmount (a : JSNum) : Prop := ∃ q : ℚ, a = .num q ∧ 0 < q

/-- Boolean success of an `Except`. -/
def isOkE {α : Type} : Except String α → Bool
  | .ok _ => true
  | .error _ => false

theorem construct_isOk_iff (id : ℤ) (type : String) (amount : JSNum)
    (category description : String) (date : Option ℤ) (now : ℤ) :
    isOkE (Transaction.construct id type amount category description date now) = true ↔
      validType type ∧ validAmount amount := by
  unfold Transaction.construct validType validAmount
  by_cases hty : type = "income" ∨ type = "expense"
  · cases amount with
    | num q =>
        by_cases hq : q ≤ 0
        · simp only [hty, hq, not_true, ite_false, ite_true, if_true, if_false]
          constructor
          · intro h
            simp [isOkE] at h
          · rintro ⟨-, r, hr, hpos⟩
            cases hr
            exact absurd hq (by linarith)
        · simp only [hty, hq, not_true, ite_false, ite_true, if_true, if_false]
          constructor
          · intro _
            exact ⟨by simp [hty], q, rfl, by linarith⟩
          · intro _
            simp [isOkE]
    | nan =>
        simp only [hty, not_true, ite_false, ite_true]
        constructor
        · intro h
          simp [isOkE] at h
        · rintro ⟨-, r, hr, -⟩
          cases hr
    | inf =>
        simp only [hty, not_true, ite_false, ite_true]
        constructor
        · intro h
          simp [isOkE] at h
        · rintro ⟨-, r, hr, -⟩
          cases hr
    | negInf =>
        simp only [hty, not_true, ite_false, ite_true]
        constructor
        · intro h
          simp [isOkE] at h
        · rintro ⟨-, r, hr, -⟩
          cases hr
  · constructor
    · intro h
      simp [hty, isOkE] at h
    · rintro ⟨h1, -⟩
      exact absurd h1 hty

theorem objGet_objSet_self {α : Type} (k : String) (v : α) (m : List (String × α)) :
    objGet k (objSet k v m) = some v := by
  induction m with
  | nil => simp [objSet, objGet]
  | cons p rest ih =>
      obtain ⟨k', v'⟩ := p
      by_cases h : k' = k
      · simp [objSet, objGet, h]
      · simp [objSet, objGet, h, ih]

theorem objGet_objSet_ne {α : Type} (k c : String) (v : α) (m : List (String × α))
    (h : c ≠ k) : objGet c (objSet k v m) = objGet c m := by
  induction m with
  | nil => simp [objSet, objGet, Ne.symm h]
  | cons p rest ih =>
      obtain ⟨k', v'⟩ := p
      by_cases hk : k' = k
      · subst hk
        simp [objSet, objGet, Ne.symm h]
      · simp [objSet, objGet, hk, ih]

/-- C1 (counterexample): on a fresh ledger, `addTransaction` with the
invalid kind "transfer" throws the validation error, yet `nextId` has
moved from 1 to 2 — the claim that a failing Add leaves `nextId`
unchanged is false on the code. -/
theorem C1_counterexample :
    (FinanceTracker.init.addTransaction "transfer" (JSNum.num 10) "x" "y" 0).1 =
      Except.error "[Transaction] 非法 type，必须为 income 或 expense" ∧
    (FinanceTracker.init.addTransaction "transfer" (JSNum.num 10) "x" "y" 0).2.nextId = 2 ∧
    (FinanceTracker.init.addTransaction "transfer" (JSNum.num 10) "x" "y" 0).2.transactions = [] :=
  ⟨rfl, rfl, rfl⟩

/-- C1 (amended): for every ledger state, an `addTransaction` call whose
arguments fail validation (kind not exactly "income"/"expense", or amount
not a finite number strictly greater than zero) raises the validation
error and appends no record, leaving `transactions` and `budgets`
unchanged — but `nextId` IS incremented by one, because the JS
post-increment `this.nextId++` is evaluated while building the
constructor arguments, before validation runs. -/
theorem C1_add_failure_state (l : FinanceTracker) (type : String) (amount : JSNum)
    (category description : String) (now : ℤ)
    (h : ¬ (validType type ∧ validAmount amount)) :
    isOkE (l.addTransaction type amount category description now).1 = false ∧
    (l.addTransaction type amount category description now).2.transactions = l.transactions ∧
    (l.addTransaction type amount category description now).2.nextId = l.nextId + 1 ∧
    (l.addTransaction type amount category description now).2.budgets = l.budgets := by
  have hfail :
      isOkE (Transaction.construct l.nextId type amount category description none now) = false := by
    rcases hv : isOkE (Transaction.construct l.nextId type amount category description none now) with _ | _
    · rfl
    · exact absurd ((construct_isOk_iff l.nextId type amount category description none now).mp hv) h
  rcases hc : Transaction.construct l.nextId type amount category description none now with e | t
  · simp [FinanceTracker.addTransaction, hc, isOkE]
  · rw [hc] at hfail
    simp [isOkE] at hfail

/-- C1 witness: a concrete failing Add, checked through the amended theorem. -/
theorem C1_add_failure_state_witness :
    isOkE (FinanceTracker.init.addTransaction "transfer" (JSNum.num 7) "Food" "d" 5).1 = false ∧
    (FinanceTracker.init.addTransaction "transfer" (JSNum.num 7) "Food" "d" 5).2.transactions =
      FinanceTracker.init.transactions ∧
    (FinanceTracker.init.addTransaction "transfer" (JSNum.num 7) "Food" "d" 5).2.nextId =
      FinanceTracker.init.nextId + 1 ∧
    (FinanceTracker.init.addTransaction "transfer" (JSNum.num 7) "Food" "d" 5).2.budgets =
      FinanceTracker.init.budgets :=
  C1_add_failure_state FinanceTracker.init "transfer" (JSNum.num 7) "Food" "d" 5
    (fun hcon => by rcases hcon.1 with h | h <;> exact absurd h (by decide))

/-- C4 (counterexample): `setBudget` accepts positive infinity, which the
claim says must be rejected: the JS guard is only `amount <= 0`, and
`Infinity <= 0` is false, so the budget is stored. -/
theorem C4_counterexample :
    (FinanceTracker.init.setBudget "Food" JSNum.inf).1 = Except.ok () ∧
    (FinanceTracker.init.setBudget "Food" JSNum.inf).2.budgets = [("Food", JSNum.inf)] :=
  ⟨rfl, rfl⟩

/-- C4 (amended): `setBudget(category, amount)` raises the validation
error iff the JS test `amount <= 0` holds, i.e. iff `amount` is negative
infinity or a finite number at most zero — NaN and positive infinity are
accepted (there is no finiteness check).  On failure the state is
untouched; on success the single budget entry for `category` is
set/overwritten and all other budgets and the record collection are
unchanged. -/
theorem C4_setBudget_spec (l : FinanceTracker) (category : String) (amount : JSNum) :
    (isOkE (l.setBudget category amount).1 = false ↔
      (amount = JSNum.negInf ∨ ∃ q : ℚ, amount = JSNum.num q ∧ q ≤ 0)) ∧
    (isOkE (l.setBudget category amount).1 = false →
      (l.setBudget category amount).2 = l) ∧
    (isOkE (l.setBudget category amount).1 = true →
      (l.setBudget category amount).2.transactions = l.transactions ∧
      (l.setBudget category amount).2.nextId = l.nextId ∧
      objGet category (l.setBudget category amount).2.budgets = some amount ∧
      ∀ c : String, c ≠ category →
        objGet c (l.setBudget category amount).2.budgets = objGet c l.budgets) := by
  have hle : amount.le0 = true ↔
      (amount = JSNum.negInf ∨ ∃ q : ℚ, amount = JSNum.num q ∧ q ≤ 0) := by
    cases amount with
    | num q =>
        by_cases hq : q ≤ 0
        · simp [JSNum.le0, hq]
        · simp only [JSNum.le0, decide_eq_true_eq]
          constructor
          · intro h
            exact absurd h hq
          · rintro (h | ⟨r, hr, hrle⟩)
            · cases h
            · cases hr
              exact hrle
    | nan => simp [JSNum.le0]
    | inf => simp [JSNum.le0]
    | negInf => simp [JSNum.le0]
  by_cases hb : amount.le0 = true
  · refine ⟨?_, ?_, ?_⟩
    · simp [FinanceTracker.setBudget, hb, isOkE, hle.mp hb]
    · intro _
      simp [FinanceTracker.setBudget, hb]
    · intro hok
      simp [FinanceTracker.setBudget, hb, isOkE] at hok
  · have hb' : amount.le0 = false := by
      cases h : amount.le0
      · rfl
      · exact absurd h hb
    refine ⟨?_, ?_, ?_⟩
    · simp only [FinanceTracker.setBudget, hb', Bool.false_eq_true, if_false, ite_false, isOkE]
      constructor
      · intro h
        cases h
      · intro h
        exact absurd (hle.mpr h) hb
    · intro hbad
      simp [FinanceTracker.setBudget, hb', isOkE] at hbad
    · intro _
      refine ⟨?_, ?_, ?_, ?_⟩
      · simp [FinanceTracker.setBudget, hb']
      · simp [FinanceTracker.setBudget, hb']
      · simp [FinanceTracker.setBudget, hb', objGet_objSet_self]
      · intro c hc
        simp [FinanceTracker.setBudget, hb', objGet_objSet_ne _ _ _ _ hc]

/-- C4 witness: a concrete successful `setBudget`, checked through the
amended theorem. -/
theorem C4_setBudget_spec_witness :
    objGet "Food" ((FinanceTracker.init.setBudget "Food" (JSNum.num 50)).2.budgets) =
      some (JSNum.num 50) :=
  (((C4_setBudget_spec FinanceTracker.init "Food" (JSNum.num 50)).2.2) (by decide)).2.2.1

theorem removeFirstById_not_found (id : ℤ) (ts : List Transaction)
    (h : ∀ t ∈ ts, t.id ≠ id) : removeFirstById id ts = (false, ts) := by
  induction ts with
  | nil => rfl
  | cons t rest ih =>
      have ht : t.id ≠ id := h t (List.mem_cons_self t rest)
      simp only [removeFirstById, ht, if_false, ite_false]
      rw [ih (fun u hu => h u (List.mem_cons_of_mem t hu))]

theorem removeFirstById_found (id : ℤ) (pre : List Transaction) (t : Transaction)
    (post : List Transaction) (hpre : ∀ u ∈ pre, u.id ≠ id) (ht : t.id = id) :
    removeFirstById id (pre ++ t :: post) = (true, pre ++ post) := by
  induction pre with
  | nil => simp [removeFirstById, ht]
  | cons u rest ih =>
      have hu : u.id ≠ id := hpre u (List.mem_cons_self u rest)
      simp only [List.cons_append, removeFirstById, hu, if_false, ite_false]
      rw [List.append_eq, ih (fun v hv => hpre v (List.mem_cons_of_mem u hv))]

/-- C9: `deleteTransaction(id)` never touches `budgets` or `nextId`; when
no record carries the id it returns false and leaves the records
unchanged, and when one does it returns true and removes exactly the
first such record, the remaining records keeping their fields and their
relative insertion order. -/
theorem C9_delete_frame (l : FinanceTracker) (id : ℤ) :
    (l.deleteTransaction id).2.budgets = l.budgets ∧
    (l.deleteTransaction id).2.nextId = l.nextId ∧
    ((∀ t ∈ l.transactions, t.id ≠ id) →
      (l.deleteTransaction id).1 = false ∧
      (l.deleteTransaction id).2.transactions = l.transactions) ∧
    (∀ pre t post, l.transactions = pre ++ t :: post → t.id = id →
      (∀ u ∈ pre, u.id ≠ id) →
      (l.deleteTransaction id).1 = true ∧
      (l.deleteTransaction id).2.transactions = pre ++ post) := by
  refine ⟨rfl, rfl, ?_, ?_⟩
  · intro h
    simp [FinanceTracker.deleteTransaction, removeFirstById_not_found id l.transactions h]
  · intro pre t post hsplit ht hpre
    simp [FinanceTracker.deleteTransaction, hsplit,
      removeFirstById_found id pre t post hpre ht]

/-- C9 witness: deleting id 2 from a two-record ledger removes exactly the
second record and leaves `nextId` and `budgets` alone. -/
theorem C9_delete_frame_witness :
    ((FinanceTracker.mk
        [⟨1, "income", 5, "a", "b", 0⟩, ⟨2, "expense", 3, "c", "d", 0⟩] 3
        [("Food", JSNum.num 9)]).deleteTransaction 2).1 = true ∧
    ((FinanceTracker.mk
        [⟨1, "income", 5, "a", "b", 0⟩, ⟨2, "expense", 3, "c", "d", 0⟩] 3
        [("Food", JSNum.num 9)]).deleteTransaction 2).2.transactions =
      [⟨1, "income", 5, "a", "b", 0⟩] :=
  (C9_delete_frame (FinanceTracker.mk
      [⟨1, "income", 5, "a", "b", 0⟩, ⟨2, "expense", 3, "c", "d", 0⟩] 3
      [("Food", JSNum.num 9)]) 2).2.2.2
    [⟨1, "income", 5, "a", "b", 0⟩] ⟨2, "expense", 3, "c", "d", 0⟩ [] rfl rfl
    (by decide)

theorem foldl_add_amount (xs : List Transaction) (s : ℚ) :
    xs.foldl (fun a t => a + t.amount) s = s + (xs.map (fun t => t.amount)).sum := by
  induction xs generalizing s with
  | nil => simp
  | cons t rest ih =>
      simp only [List.foldl_cons, List.map_cons, List.sum_cons]
      rw [ih]
      ring

theorem filter_category_then_type (c : String) (xs : List Transaction) :
    (xs.filter (fun t => t.category = c)).filter (fun t => t.type = "expense") =
      xs.filter (fun t => t.type = "expense" ∧ t.category = c) := by
  induction xs with
  | nil => rfl
  | cons t rest ih =>
      by_cases h1 : t.category = c <;> by_cases h2 : t.type = "expense" <;>
        simp [List.filter_cons, h1, h2, ih]

/-- C7 (counterexample): a `NaN` budget is storable through `setBudget`
and is a configured budget, but `checkBudget` reports `budget = 0` for it
(`NaN || 0` is `0`), so "budget equal to the configured budget" is false
on the code at this state. -/
theorem C7_counterexample :
    (FinanceTracker.init.setBudget "Food" JSNum.nan).1 = Except.ok () ∧
    objGet "Food" ((FinanceTracker.init.setBudget "Food" JSNum.nan).2.budgets) =
      some JSNum.nan ∧
    (((FinanceTracker.init.setBudget "Food" JSNum.nan).2).checkBudget "Food").budget =
      JSNum.num 0 ∧
    JSNum.num 0 ≠ JSNum.nan :=
  ⟨rfl, rfl, rfl, by decide⟩

/-- C7 (amended): `checkBudget(category)` returns: `budget` equal to the
configured budget when one is configured and truthy (and `0` when none is
configured or the stored value is falsy, e.g. `NaN`); `spent` equal to the
sum of expense amounts in the category; `remaining = budget - spent`
under JS subtraction (negative values representable, not clamped); and
`percentage = round(spent / budget * 100)` under JS arithmetic whenever
`budget` is truthy (for a finite nonzero budget that is the floor formula
below; for a budget of positive or negative infinity the quotient is 0 and
the percentage is 0), and `0` otherwise — in particular `0` whenever no
budget is configured. -/
theorem C7_checkBudget_spec (l : FinanceTracker) (category : String) :
    (∀ v, objGet category l.budgets = some v →
      (l.checkBudget category).budget = (if v.truthy then v else JSNum.num 0)) ∧
    (objGet category l.budgets = none → (l.checkBudget category).budget = JSNum.num 0) ∧
    ((l.checkBudget category).spent =
      ((l.transactions.filter (fun t => t.type = "expense" ∧ t.category = category)).map
        (fun t => t.amount)).sum) ∧
    ((l.checkBudget category).remaining =
      JSNum.sub (l.checkBudget category).budget (JSNum.num (l.checkBudget category).spent)) ∧
    ((l.checkBudget category).budget.truthy = false →
      (l.checkBudget category).percentage = JSNum.num 0) ∧
    (∀ q : ℚ, (l.checkBudget category).budget = JSNum.num q → q ≠ 0 →
      (l.checkBudget category).percentage =
        JSNum.num ((⌊(l.checkBudget category).spent / q * 100 + 1/2⌋ : ℤ) : ℚ)) ∧
    ((l.checkBudget category).budget.truthy = true →
      (l.checkBudget category).percentage =
        JSNum.round (JSNum.mul (JSNum.div (JSNum.num (l.checkBudget category).spent)
          (l.checkBudget category).budget) (JSNum.num 100))) ∧
    ((l.checkBudget category).budget = JSNum.inf →
      (l.checkBudget category).percentage = JSNum.num 0) ∧
    ((l.checkBudget category).budget = JSNum.negInf →
      (l.checkBudget category).percentage = JSNum.num 0) := by
  refine ⟨?_, ?_, ?_, ?_, ?_, ?_, ?_, ?_, ?_⟩
  · intro v hv
    dsimp only [FinanceTracker.checkBudget]
    rw [hv]
  · intro hv
    dsimp only [FinanceTracker.checkBudget]
    rw [hv]
  · dsimp only [FinanceTracker.checkBudget, FinanceTracker.getTransactionsByCategory]
    rw [filter_category_then_type, foldl_add_amount]
    simp
  · rfl
  · intro h
    dsimp only [FinanceTracker.checkBudget] at h ⊢
    rw [h]
    simp
  · intro q hq hqne
    dsimp only [FinanceTracker.checkBudget] at hq ⊢
    rw [hq]
    simp [JSNum.truthy, JSNum.div, JSNum.mul, JSNum.round, hqne]
  · intro h
    dsimp only [FinanceTracker.checkBudget] at h ⊢
    rw [h]
    simp
  · intro h
    dsimp only [FinanceTracker.checkBudget] at h ⊢
    rw [h]
    simp only [JSNum.truthy, JSNum.div, JSNum.mul, JSNum.round, ite_true, if_true]
    have hfl : (⌊(0 : ℚ) * 100 + 1/2⌋ : ℤ) = 0 := by
      rw [Int.floor_eq_iff]
      norm_num
    rw [hfl]
    norm_num
  · intro h
    dsimp only [FinanceTracker.checkBudget] at h ⊢
    rw [h]
    simp only [JSNum.truthy, JSNum.div, JSNum.mul, JSNum.round, ite_true, if_true]
    have hfl : (⌊(0 : ℚ) * 100 + 1/2⌋ : ℤ) = 0 := by
      rw [Int.floor_eq_iff]
      norm_num
    rw [hfl]
    norm_num

/-- C7 witness: the spec scenario — budget 500 on "Food", expenses 400 —
reports percentage 80, and a stored Infinity budget (truthy) reports
percentage 0, both via the amended theorem. -/
theorem C7_checkBudget_spec_witness :
    ((FinanceTracker.mk [⟨1, "expense", 400, "Food", "d", 0⟩] 2
        [("Food", JSNum.num 500)]).checkBudget "Food").percentage = JSNum.num 80 ∧
    (((FinanceTracker.init.setBudget "Food" JSNum.inf).2).checkBudget "Food").percentage =
      JSNum.num 0 := by
  refine ⟨?_, (C7_checkBudget_spec ((FinanceTracker.init.setBudget "Food"
    JSNum.inf).2) "Food").2.2.2.2.2.2.2.1 (by decide)⟩
  have h := (C7_checkBudget_spec (FinanceTracker.mk
      [⟨1, "expense", 400, "Food", "d", 0⟩] 2 [("Food", JSNum.num 500)]) "Food").2.2.2.2.2.1
      500 (by decide) (by norm_num)
  have hs : ((FinanceTracker.mk [⟨1, "expense", 400, "Food", "d", 0⟩] 2
      [("Food", JSNum.num 500)]).checkBudget "Food").spent = 400 := by
    rw [(C7_checkBudget_spec (FinanceTracker.mk
        [⟨1, "expense", 400, "Food", "d", 0⟩] 2 [("Food", JSNum.num 500)]) "Food").2.2.1]
    simp [List.filter]
  rw [h, hs]
  have hfl : (⌊(400 : ℚ) / 500 * 100 + 1/2⌋ : ℤ) = 80 := by
    rw [Int.floor_eq_iff]
    norm_num
  rw [hfl]
  norm_num

/-- A decoded element of the JSON array handed to `importFromJSON`:
`new Date(obj.date)` yields a valid date (`some ms`) or an invalid one
(`none`, later replaced by the constructor).  `id` is arbitrary and
unvalidated. -/
structure JsonEntry where
  id : ℤ
  type : String
  amount : JSNum
  category : String
  description : String
  date : Option ℤ
deriving DecidableEq

/-- `exportToJSON`: `JSON.stringify(this.transactions, null, 2)`, modelled
at the structural level (a stored `Date` serializes to ISO-8601 text and
parses back to the same millisecond value, hence `some t.date`). -/
def FinanceTracker.exportToJSON (l : FinanceTracker) : List JsonEntry :=
  l.transactions.map (fun t =>
    ⟨t.id, t.type, JSNum.num t.amount, t.category, t.description, some t.date⟩)

/-- The `arr.map(obj => new Transaction(...))` step of `importFromJSON`:
rebuild every entry, stopping at the first constructor throw.  The array
is fully mapped before any field of the tracker is assigned. -/
def buildTransactions (now : ℤ) : List JsonEntry → Except String (List Transaction)
  | [] => .ok []
  | e :: es =>
      match Transaction.construct e.id e.type e.amount e.category e.description e.date now with
      | .error msg => .error msg
      | .ok t =>
          match buildTransactions now es with
          | .error msg => .error msg
          | .ok ts => .ok (t :: ts)

/-- `this.transactions.length ? Math.max(...ids) + 1 : 1`. -/
def nextIdAfterImport (ts : List Transaction) : ℤ :=
  match ts with
  | [] => 1
  | t :: rest => (rest.map (fun u => u.id)).foldl max t.id + 1

/-- `importFromJSON(jsonString)`: the input is the parse result of the
text (`none` when `JSON.parse` throws or the value is not an array).
All throws happen before `this.transactions` is assigned. -/
def FinanceTracker.importFromJSON (l : FinanceTracker)
    (input : Option (List JsonEntry)) (now : ℤ) :
    Except String Unit × FinanceTracker :=
  match input with
  | none => (.error "[importFromJSON] 解析失败", l)
  | some arr =>
      match buildTransactions now arr with
      | .error msg => (.error ("[importFromJSON] 解析失败：" ++ msg), l)
      | .ok ts => (.ok (), { l with transactions := ts, nextId := nextIdAfterImport ts })

/-- C2: a failed import — unparseable text, a non-array payload, or any
entry failing Transaction validation — leaves the ledger exactly as it
was: records, nextId and budgets are untouched (import is
all-or-nothing, since the whole array is rebuilt before assignment). -/
theorem C2_import_all_or_nothing (l : FinanceTracker)
    (input : Option (List JsonEntry)) (now : ℤ)
    (h : isOkE (l.importFromJSON input now).1 = false) :
    (l.importFromJSON input now).2 = l := by
  cases input with
  | none => rfl
  | some arr =>
      cases hb : buildTransactions now arr with
      | error msg => simp [FinanceTracker.importFromJSON, hb]
      | ok ts =>
          exfalso
          simp [FinanceTracker.importFromJSON, hb, isOkE] at h

/-- C2 witness: importing an array with an invalid kind fails and leaves
a nonempty ledger unchanged. -/
theorem C2_import_all_or_nothing_witness :
    ((FinanceTracker.mk [⟨1, "income", 5, "a", "b", 0⟩] 2
        [("Food", JSNum.num 9)]).importFromJSON
      (some [⟨7, "transfer", JSNum.num 3, "c", "d", some 0⟩]) 9).2 =
    FinanceTracker.mk [⟨1, "income", 5, "a", "b", 0⟩] 2 [("Food", JSNum.num 9)] :=
  C2_import_all_or_nothing
    (FinanceTracker.mk [⟨1, "income", 5, "a", "b", 0⟩] 2 [("Food", JSNum.num 9)])
    (some [⟨7, "transfer", JSNum.num 3, "c", "d", some 0⟩]) 9 (by decide)

/-- A record as produced by a successful `addTransaction` call: its kind
is one of the two legal ones and its amount is positive. -/
def ValidRecord (t : Transaction) : Prop :=
  (t.type = "income" ∨ t.type = "expense") ∧ 0 < t.amount

theorem buildTransactions_export (now : ℤ) (ts : List Transaction)
    (h : ∀ t ∈ ts, ValidRecord t) :
    buildTransactions now (ts.map (fun t =>
      ⟨t.id, t.type, JSNum.num t.amount, t.category, t.description, some t.date⟩)) =
    .ok ts := by
  induction ts with
  | nil => rfl
  | cons t rest ih =>
      obtain ⟨hty, hpos⟩ := h t (List.mem_cons_self t rest)
      have hne : ¬ (t.amount ≤ 0) := not_le.mpr hpos
      have hty' : ¬ ¬ (t.type = "income" ∨ t.type = "expense") := not_not.mpr hty
      simp only [List.map_cons, buildTransactions, Transaction.construct, hty',
        if_false, ite_false, hne, Option.getD_some]
      rw [ih (fun u hu => h u (List.mem_cons_of_mem t hu))]

theorem foldl_max_mem (xs : List ℤ) : ∀ x : ℤ, xs.foldl max x ∈ x :: xs := by
  induction xs with
  | nil => intro x; simp
  | cons a as ih =>
      intro x
      simp only [List.foldl_cons]
      rcases List.mem_cons.mp (ih (max x a)) with h | h
      · rw [List.mem_cons, List.mem_cons, h]
        rcases max_choice x a with hm | hm
        · exact Or.inl hm
        · exact Or.inr (Or.inl hm)
      · simp [h]

theorem le_foldl_max (xs : List ℤ) : ∀ x : ℤ, ∀ y ∈ x :: xs, y ≤ xs.foldl max x := by
  induction xs with
  | nil =>
      intro x y hy
      simp at hy
      simp [hy]
  | cons a as ih =>
      intro x y hy
      simp only [List.foldl_cons]
      rcases List.mem_cons.mp hy with h | h
      · rw [h]
        exact le_trans (le_max_left x a) (ih (max x a) (max x a) (List.mem_cons_self _ _))
      · rcases List.mem_cons.mp h with h' | h'
        · rw [h']
          exact le_trans (le_max_right x a) (ih (max x a) (max x a) (List.mem_cons_self _ _))
        · exact ih (max x a) y (List.mem_cons_of_mem _ h')

/-- C3: exporting a ledger whose records all came from valid Add calls
and importing the payload into a fresh ledger succeeds and reproduces the
identical ordered record list (ids, kinds, amounts, categories,
descriptions and dates all equal), and sets `nextId` to one greater than
the maximum imported id — or to 1 when the record set is empty. -/
theorem C3_export_import_roundtrip (l : FinanceTracker) (now : ℤ)
    (h : ∀ t ∈ l.transactions, ValidRecord t) :
    (FinanceTracker.init.importFromJSON (some l.exportToJSON) now).1 = Except.ok () ∧
    (FinanceTracker.init.importFromJSON (some l.exportToJSON) now).2.transactions =
      l.transactions ∧
    (l.transactions = [] →
      (FinanceTracker.init.importFromJSON (some l.exportToJSON) now).2.nextId = 1) ∧
    (∀ t0 ts, l.transactions = t0 :: ts →
      ∃ m : ℤ,
        (FinanceTracker.init.importFromJSON (some l.exportToJSON) now).2.nextId = m + 1 ∧
        m ∈ l.transactions.map (fun t => t.id) ∧
        ∀ i ∈ l.transactions.map (fun t => t.id), i ≤ m) := by
  have hb := buildTransactions_export now l.transactions h
  refine ⟨?_, ?_, ?_, ?_⟩
  · simp [FinanceTracker.importFromJSON, FinanceTracker.exportToJSON, hb]
  · simp [FinanceTracker.importFromJSON, FinanceTracker.exportToJSON, hb]
  · intro he
    rw [he] at hb
    simp only [List.map_nil] at hb
    simp [FinanceTracker.importFromJSON, FinanceTracker.exportToJSON, he, hb,
      nextIdAfterImport]
  · intro t0 ts hsplit
    rw [hsplit] at hb
    simp only [List.map_cons] at hb
    refine ⟨(ts.map (fun u => u.id)).foldl max t0.id, ?_, ?_, ?_⟩
    · simp [FinanceTracker.importFromJSON, FinanceTracker.exportToJSON, hsplit, hb,
        nextIdAfterImport]
    · rw [hsplit]
      simpa using foldl_max_mem (ts.map (fun u => u.id)) t0.id
    · rw [hsplit]
      intro i hi
      exact le_foldl_max (ts.map (fun u => u.id)) t0.id i (by simpa using hi)

/-- C3 witness: a concrete two-record round trip, with `nextId` landing
on `max id + 1 = 3`. -/
theorem C3_export_import_roundtrip_witness :
    (FinanceTracker.init.importFromJSON (some (FinanceTracker.mk
        [⟨1, "income", 5, "a", "b", 100⟩, ⟨2, "expense", 3, "c", "d", 200⟩] 3
        []).exportToJSON) 9).1 = Except.ok () ∧
    (FinanceTracker.init.importFromJSON (some (FinanceTracker.mk
        [⟨1, "income", 5, "a", "b", 100⟩, ⟨2, "expense", 3, "c", "d", 200⟩] 3
        []).exportToJSON) 9).2.transactions =
      [⟨1, "income", 5, "a", "b", 100⟩, ⟨2, "expense", 3, "c", "d", 200⟩] := by
  have h := C3_export_import_roundtrip (FinanceTracker.mk
      [⟨1, "income", 5, "a", "b", 100⟩, ⟨2, "expense", 3, "c", "d", 200⟩] 3 []) 9
      (by
        intro t ht
        fin_cases ht
        · exact ⟨Or.inl rfl, by norm_num⟩
        · exact ⟨Or.inr rfl, by norm_num⟩)
  exact ⟨h.1, h.2.1⟩

/-- C10: `importFromJSON` re-validates kinds and amounts but not ids: a
well-formed payload whose two entries share id 1 imports successfully and
yields a ledger whose record collection contains two records with the
same id — the id-uniqueness invariant is not re-established. -/
theorem C10_import_no_id_validation :
    (FinanceTracker.init.importFromJSON (some
      [⟨1, "income", JSNum.num 5, "a", "b", some 0⟩,
       ⟨1, "expense", JSNum.num 3, "c", "d", some 0⟩]) 0).1 = Except.ok () ∧
    (FinanceTracker.init.importFromJSON (some
      [⟨1, "income", JSNum.num 5, "a", "b", some 0⟩,
       ⟨1, "expense", JSNum.num 3, "c", "d", some 0⟩]) 0).2.transactions =
      [⟨1, "income", 5, "a", "b", 0⟩, ⟨1, "expense", 3, "c", "d", 0⟩] ∧
    ((FinanceTracker.init.importFromJSON (some
      [⟨1, "income", JSNum.num 5, "a", "b", some 0⟩,
       ⟨1, "expense", JSNum.num 3, "c", "d", some 0⟩]) 0).2.transactions.map
        (fun t => t.id)) = [1, 1] ∧
    (FinanceTracker.init.importFromJSON (some
      [⟨1, "income", JSNum.num 5, "a", "b", some 0⟩,
       ⟨1, "expense", JSNum.num 3, "c", "d", some 0⟩]) 0).2.nextId = 2 :=
  ⟨rfl, rfl, rfl, rfl⟩

/-- An argument passed to `getTransactionsByDateRange`: either not a
`Date` object at all, a `Date` holding an invalid time (`NaN`), or a
valid `Date` with a millisecond value. -/
inductive DateArg where
  | notDate
  | invalid
  | valid (ms : ℤ)
deriving DecidableEq

/-- The JS comparison `t.date >= a` for a stored (valid) date against a
`Date` argument: comparisons against an invalid date (`NaN`) are false. -/
def dateGE (t : ℤ) : DateArg → Bool
  | .valid s => s ≤ t
  | _ => false

/-- The JS comparison `t.date <= a`. -/
def dateLE (t : ℤ) : DateArg → Bool
  | .valid e => t ≤ e
  | _ => false

/-- `getTransactionsByDateRange(startDate, endDate)`: the guard only
checks `instanceof Date`; an invalid `Date` instance passes the guard. -/
def FinanceTracker.getTransactionsByDateRange (l : FinanceTracker)
    (startDate endDate : DateArg) : Except String (List Transaction) :=
  if startDate = DateArg.notDate ∨ endDate = DateArg.notDate then
    .error "[getTransactionsByDateRange] 参数必须是 Date 类型"
  else
    .ok (l.transactions.filter (fun t => dateGE t.date startDate && dateLE t.date endDate))

/-- C5 (counterexample): with a record present, calling the range query
with two invalid-time `Date` instances does not raise — it returns `ok`
with an empty list, while the claim demands a `ValidationError` for any
argument that is not a valid timestamp. -/
theorem C5_counterexample :
    (FinanceTracker.mk [⟨1, "income", 5, "a", "b", 0⟩] 2
        []).getTransactionsByDateRange DateArg.invalid DateArg.invalid =
      Except.ok [] :=
  rfl

/-- C5 (amended): `getTransactionsByDateRange(start, end)` raises the
validation error iff `start` or `end` is not a `Date` instance; a `Date`
instance carrying an invalid time passes the guard, and since every
comparison against `NaN` is false such a bound selects no records.  When
both bounds are valid timestamps the result is exactly the records whose
date lies in the closed interval `[start, end]`, in insertion order. -/
theorem C5_dateRange_spec (l : FinanceTracker) (startDate endDate : DateArg) :
    (isOkE (l.getTransactionsByDateRange startDate endDate) = false ↔
      (startDate = DateArg.notDate ∨ endDate = DateArg.notDate)) ∧
    (∀ s e : ℤ, startDate = DateArg.valid s → endDate = DateArg.valid e →
      l.getTransactionsByDateRange startDate endDate =
        Except.ok (l.transactions.filter (fun t => s ≤ t.date ∧ t.date ≤ e))) ∧
    ((startDate = DateArg.invalid ∨ endDate = DateArg.invalid) →
      startDate ≠ DateArg.notDate → endDate ≠ DateArg.notDate →
      l.getTransactionsByDateRange startDate endDate = Except.ok []) := by
  refine ⟨?_, ?_, ?_⟩
  · by_cases hg : startDate = DateArg.notDate ∨ endDate = DateArg.notDate
    · simp [FinanceTracker.getTransactionsByDateRange, hg, isOkE]
    · simp [FinanceTracker.getTransactionsByDateRange, hg, isOkE]
  · intro s e hs he
    subst hs
    subst he
    simp only [FinanceTracker.getTransactionsByDateRange]
    rw [if_neg (by simp)]
    congr 1
    apply List.filter_congr
    intro t _
    simp [dateGE, dateLE]
  · intro hinv hs he
    simp only [FinanceTracker.getTransactionsByDateRange]
    rw [if_neg (by simp [hs, he])]
    have hemp : l.transactions.filter
        (fun t => dateGE t.date startDate && dateLE t.date endDate) = [] := by
      apply List.filter_eq_nil_iff.mpr
      intro t _
      rcases hinv with h | h
      · rw [h]
        simp [dateGE]
      · rw [h]
        simp [dateLE]
    rw [hemp]

/-- C5 witness: a valid closed-interval query keeps exactly the records
dated inside the bounds, endpoints included. -/
theorem C5_dateRange_spec_witness :
    (FinanceTracker.mk
        [⟨1, "income", 5, "a", "b", 10⟩, ⟨2, "expense", 3, "c", "d", 50⟩,
         ⟨3, "expense", 2, "e", "f", 90⟩] 4
        []).getTransactionsByDateRange (DateArg.valid 10) (DateArg.valid 50) =
      Except.ok [⟨1, "income", 5, "a", "b", 10⟩, ⟨2, "expense", 3, "c", "d", 50⟩] := by
  have h := (C5_dateRange_spec (FinanceTracker.mk
      [⟨1, "income", 5, "a", "b", 10⟩, ⟨2, "expense", 3, "c", "d", 50⟩,
       ⟨3, "expense", 2, "e", "f", 90⟩] 4 [])
      (DateArg.valid 10) (DateArg.valid 50)).2.1 10 50 rfl rfl
  rw [h]
  rfl

/-- One ledger mutation for the id-freshness claim: an `addTransaction`
call or a `deleteTransaction` call. -/
inductive Op where
  | add (type : String) (amount : JSNum) (category description : String)
  | del (id : ℤ)

/-- An `add` operation is successful when its arguments pass Transaction
validation; a delete never throws. -/
def Op.valid : Op → Prop
  | .add type amount _ _ => validType type ∧ validAmount amount
  | .del _ => True

/-- Apply one operation to the ledger (keeping the post-state). -/
def applyOp (now : ℤ) (l : FinanceTracker) : Op → FinanceTracker
  | .add type amount category description =>
      (l.addTransaction type amount category description now).2
  | .del i => (l.deleteTransaction i).2

/-- Run a sequence of operations from a state. -/
def runOps (now : ℤ) : FinanceTracker → List Op → FinanceTracker
  | l, [] => l
  | l, op :: ops => runOps now (applyOp now l op) ops

/-- The ids handed out by the `add` operations of a run, in order: each
`addTransaction` call consumes the current `nextId`. -/
def assignedIds (now : ℤ) : FinanceTracker → List Op → List ℤ
  | _, [] => []
  | l, .add t a c d :: ops =>
      l.nextId :: assignedIds now (applyOp now l (.add t a c d)) ops
  | l, .del i :: ops => assignedIds now (applyOp now l (.del i)) ops

/-- Number of `add` operations in a sequence. -/
def countAdds : List Op → ℕ
  | [] => 0
  | .add _ _ _ _ :: ops => countAdds ops + 1
  | .del _ :: ops => countAdds ops

/-- The arithmetic sequence start, start+1, ..., start+n-1. -/
def idRange (start : ℤ) : ℕ → List ℤ
  | 0 => []
  | n + 1 => start :: idRange (start + 1) n

theorem applyOp_nextId_add (now : ℤ) (l : FinanceTracker) (t : String) (a : JSNum)
    (c d : String) : (applyOp now l (.add t a c d)).nextId = l.nextId + 1 := by
  cases hc : Transaction.construct l.nextId t a c d none now <;>
    simp [applyOp, FinanceTracker.addTransaction, hc]

theorem applyOp_nextId_del (now : ℤ) (l : FinanceTracker) (i : ℤ) :
    (applyOp now l (.del i)).nextId = l.nextId := rfl

theorem assignedIds_shape (now : ℤ) (ops : List Op) : ∀ l : FinanceTracker,
    assignedIds now l ops = idRange l.nextId (countAdds ops) := by
  induction ops with
  | nil => intro l; rfl
  | cons op rest ih =>
      intro l
      cases op with
      | add t a c d =>
          simp only [assignedIds, countAdds, idRange, ih,
            applyOp_nextId_add now l t a c d]
      | del i =>
          simp only [assignedIds, countAdds, ih, applyOp_nextId_del now l i]

theorem idRange_eq_range_map (n : ℕ) : ∀ start : ℤ,
    idRange start n = (List.range n).map (fun k : ℕ => start + (k : ℤ)) := by
  induction n with
  | zero => intro start; rfl
  | succ n ih =>
      intro start
      rw [idRange, ih (start + 1), List.range_succ_eq_map, List.map_cons, List.map_map]
      simp only [Nat.cast_zero, add_zero, List.cons.injEq, true_and]
      apply List.map_congr_left
      intro k _
      simp only [Function.comp_apply, Nat.cast_succ]
      ring

theorem addTransaction_valid_state (l : FinanceTracker) (type : String) (amount : JSNum)
    (category description : String) (now : ℤ)
    (h : validType type ∧ validAmount amount) :
    ∃ t : Transaction, t.id = l.nextId ∧
      (l.addTransaction type amount category description now).2.transactions =
        l.transactions ++ [t] ∧
      (l.addTransaction type amount category description now).2.nextId = l.nextId + 1 := by
  obtain ⟨q, rfl, hq⟩ := h.2
  have hq' : ¬ (q ≤ 0) := not_le.mpr hq
  have hok : Transaction.construct l.nextId type (JSNum.num q) category description none now =
      .ok ⟨l.nextId, type, q, category, description, now⟩ := by
    rcases h.1 with h1 | h1 <;> subst h1 <;> simp [Transaction.construct, hq']
  refine ⟨⟨l.nextId, type, q, category, description, now⟩, rfl, ?_, ?_⟩ <;>
    simp [FinanceTracker.addTransaction, hok]

theorem removeFirstById_sublist (id : ℤ) (ts : List Transaction) :
    (removeFirstById id ts).2.Sublist ts := by
  induction ts with
  | nil => simp [removeFirstById]
  | cons t rest ih =>
      by_cases h : t.id = id
      · simp [removeFirstById, h]
      · simp only [removeFirstById, h, if_false, ite_false]
        exact List.Sublist.cons₂ t ih

/-- Invariant: `nextId` is at least 1, all stored ids lie in `[1, nextId)`,
and stored ids are strictly increasing in insertion order. -/
def GoodLedger (l : FinanceTracker) : Prop :=
  1 ≤ l.nextId ∧
  (∀ t ∈ l.transactions, 1 ≤ t.id ∧ t.id < l.nextId) ∧
  l.transactions.Pairwise (fun a b => a.id < b.id)

theorem goodLedger_init : GoodLedger FinanceTracker.init := by
  refine ⟨le_refl 1, ?_, ?_⟩ <;> simp [FinanceTracker.init]

theorem applyOp_good (now : ℤ) (l : FinanceTracker) (op : Op) (hop : op.valid)
    (h : GoodLedger l) : GoodLedger (applyOp now l op) := by
  obtain ⟨hnext, hbound, hpair⟩ := h
  cases op with
  | add t a c d =>
      obtain ⟨tx, htid, htr, hni⟩ := addTransaction_valid_state l t a c d now hop
      constructor
      · rw [show (applyOp now l (Op.add t a c d)).nextId = l.nextId + 1 from
          applyOp_nextId_add now l t a c d]
        omega
      constructor
      · intro u hu
        rw [show applyOp now l (Op.add t a c d) =
            (l.addTransaction t a c d now).2 from rfl] at hu ⊢
        rw [htr] at hu
        rw [hni]
        rcases List.mem_append.mp hu with hm | hm
        · have := hbound u hm
          omega
        · rw [List.mem_singleton.mp hm, htid]
          omega
      · rw [show applyOp now l (Op.add t a c d) =
            (l.addTransaction t a c d now).2 from rfl, htr]
        rw [List.pairwise_append]
        refine ⟨hpair, List.pairwise_singleton _ _, ?_⟩
        intro u hu v hv
        rw [List.mem_singleton.mp hv, htid]
        exact (hbound u hu).2
  | del i =>
      have hsub : (applyOp now l (.del i)).transactions.Sublist l.transactions :=
        removeFirstById_sublist i l.transactions
      exact ⟨hnext, fun u hu => hbound u (hsub.mem hu), hpair.sublist hsub⟩

theorem runOps_good (now : ℤ) (ops : List Op) : ∀ l : FinanceTracker,
    (∀ op ∈ ops, op.valid) → GoodLedger l → GoodLedger (runOps now l ops) := by
  induction ops with
  | nil => intro l _ h; exact h
  | cons op rest ih =>
      intro l hv h
      exact ih (applyOp now l op)
        (fun o ho => hv o (List.mem_cons_of_mem op ho))
        (applyOp_good now l op (hv op (List.mem_cons_self op rest)) h)

/-- C6: over any interleaving of successful `addTransaction` and
`deleteTransaction` calls starting from a fresh ledger, the ids handed
out by the adds are exactly 1, 2, 3, ... in order (strictly increasing
from 1, never reusing an id even after deletes), and the final record
collection carries strictly increasing — in particular pairwise
distinct — ids. -/
theorem C6_id_assignment (now : ℤ) (ops : List Op)
    (h : ∀ op ∈ ops, op.valid) :
    assignedIds now FinanceTracker.init ops =
      (List.range (countAdds ops)).map (fun k : ℕ => 1 + (k : ℤ)) ∧
    (assignedIds now FinanceTracker.init ops).Nodup ∧
    ((runOps now FinanceTracker.init ops).transactions.map
      (fun t => t.id)).Pairwise (· < ·) ∧
    ((runOps now FinanceTracker.init ops).transactions.map
      (fun t => t.id)).Pairwise (· ≠ ·) := by
  have h1 : assignedIds now FinanceTracker.init ops =
      (List.range (countAdds ops)).map (fun k : ℕ => 1 + (k : ℤ)) := by
    rw [assignedIds_shape now ops FinanceTracker.init]
    exact idRange_eq_range_map (countAdds ops) 1
  have hgood := runOps_good now ops FinanceTracker.init h goodLedger_init
  have hpair : ((runOps now FinanceTracker.init ops).transactions.map
      (fun t => t.id)).Pairwise (· < ·) :=
    List.pairwise_map.mpr hgood.2.2
  refine ⟨h1, ?_, hpair, hpair.imp ne_of_lt⟩
  rw [h1]
  exact (List.nodup_range (countAdds ops)).map
    (fun a b hab => by omega)

/-- C6 witness: add, add, delete the first id, then add again — the
assigned ids are 1, 2, 3 and the surviving records carry ids 2 and 3. -/
theorem C6_id_assignment_witness :
    assignedIds 0 FinanceTracker.init
      [Op.add "income" (JSNum.num 5) "a" "b", Op.add "expense" (JSNum.num 3) "c" "d",
       Op.del 1, Op.add "income" (JSNum.num 2) "e" "f"] = [1, 2, 3] ∧
    ((runOps 0 FinanceTracker.init
      [Op.add "income" (JSNum.num 5) "a" "b", Op.add "expense" (JSNum.num 3) "c" "d",
       Op.del 1, Op.add "income" (JSNum.num 2) "e" "f"]).transactions.map
        (fun t => t.id)) = [2, 3] := by
  have h := C6_id_assignment 0
    [Op.add "income" (JSNum.num 5) "a" "b", Op.add "expense" (JSNum.num 3) "c" "d",
     Op.del 1, Op.add "income" (JSNum.num 2) "e" "f"]
    (by
      intro op hop
      fin_cases hop
      · exact ⟨Or.inl rfl, 5, rfl, by norm_num⟩
      · exact ⟨Or.inr rfl, 3, rfl, by norm_num⟩
      · exact trivial
      · exact ⟨Or.inl rfl, 2, rfl, by norm_num⟩)
  refine ⟨?_, ?_⟩
  · rw [h.1]
    rfl
  · rfl

/-- Little-endian decimal digits of a natural number, with explicit fuel
(`natDigitsAux n n` terminates because `n / 10 < n`). -/
def natDigitsAux : ℕ → ℕ → List ℕ
  | 0, _ => []
  | _ + 1, 0 => []
  | fuel + 1, n + 1 => ((n + 1) % 10) :: natDigitsAux fuel ((n + 1) / 10)

/-- Little-endian decimal digits (empty for 0). -/
def natDigits (n : ℕ) : List ℕ := natDigitsAux n n

/-- The ASCII digit character for a digit value. -/
def digCh (d : ℕ) : Char := Char.ofNat (48 + d)

/-- Decimal rendering of a natural number, most significant digit first
(the JS `String(n)` / template-literal rendering). -/
def natToChars (n : ℕ) : List Char :=
  if n = 0 then ['0'] else (natDigits n).reverse.map digCh

/-- Decimal rendering of an integer, as JS renders an integral number. -/
def intToChars (z : ℤ) : List Char :=
  if z < 0 then '-' :: natToChars z.natAbs else natToChars z.toNat

/-- `String(m).padStart(2, "0")`. -/
def padStart2 (l : List Char) : List Char := List.replicate (2 - l.length) '0' ++ l

/-- The template `${year}-${String(month + 1).padStart(2, "0")}` building
a trend key, with `m1` the 1-based month. -/
def monthKeyChars (y m1 : ℤ) : List Char :=
  intToChars y ++ '-' :: padStart2 (intToChars m1)

/-- The "YYYY-MM" key as a string. -/
def monthKey (y m1 : ℤ) : String := ⟨monthKeyChars y m1⟩

/-- Value of a little-endian digit list. -/
def fromDigits : List ℕ → ℕ
  | [] => 0
  | d :: ds => d + 10 * fromDigits ds

theorem fromDigits_natDigitsAux (fuel : ℕ) : ∀ n, n ≤ fuel →
    fromDigits (natDigitsAux fuel n) = n := by
  induction fuel with
  | zero =>
      intro n h
      interval_cases n
      rfl
  | succ fuel ih =>
      intro n h
      match n with
      | 0 => rfl
      | m + 1 =>
          simp only [natDigitsAux, fromDigits]
          rw [ih ((m + 1) / 10) (by omega)]
          omega

theorem natDigitsAux_lt (fuel : ℕ) : ∀ n d, d ∈ natDigitsAux fuel n → d < 10 := by
  induction fuel with
  | zero =>
      intro n d h
      simp [natDigitsAux] at h
  | succ fuel ih =>
      intro n d h
      match n with
      | 0 => simp [natDigitsAux] at h
      | m + 1 =>
          simp only [natDigitsAux, List.mem_cons] at h
          rcases h with h | h
          · omega
          · exact ih _ d h

theorem digCh_val (d : ℕ) (h : d < 10) : (digCh d).toNat - 48 = d := by
  interval_cases d <;> decide

theorem digCh_ne_dash (d : ℕ) (h : d < 10) : digCh d ≠ '-' := by
  interval_cases d <;> decide

/-- Left inverse of `natToChars`, giving injectivity. -/
def charsVal (l : List Char) : ℕ :=
  fromDigits ((l.map (fun c => c.toNat - 48)).reverse)

theorem charsVal_natToChars (n : ℕ) : charsVal (natToChars n) = n := by
  by_cases h : n = 0
  · subst h
    rfl
  · unfold natToChars charsVal
    rw [if_neg h, List.map_map]
    have hcongr : ∀ d ∈ (natDigits n).reverse,
        ((fun c : Char => c.toNat - 48) ∘ digCh) d = id d := by
      intro d hd
      exact digCh_val d (natDigitsAux_lt n n d (List.mem_reverse.mp hd))
    rw [List.map_congr_left hcongr, List.map_id, List.reverse_reverse]
    exact fromDigits_natDigitsAux n n le_rfl

theorem natToChars_inj (a b : ℕ) (h : natToChars a = natToChars b) : a = b := by
  have := charsVal_natToChars a
  rw [h, charsVal_natToChars b] at this
  exact this.symm

theorem natToChars_ne_dash (n : ℕ) : ∀ c ∈ natToChars n, c ≠ '-' := by
  intro c hc
  unfold natToChars at hc
  by_cases h : n = 0
  · rw [if_pos h] at hc
    simp only [List.mem_singleton] at hc
    subst hc
    decide
  · rw [if_neg h] at hc
    simp only [List.mem_map] at hc
    obtain ⟨d, hd, rfl⟩ := hc
    exact digCh_ne_dash d (natDigitsAux_lt n n d (List.mem_reverse.mp hd))

theorem intToChars_inj (a b : ℤ) (h : intToChars a = intToChars b) : a = b := by
  unfold intToChars at h
  by_cases ha : a < 0 <;> by_cases hb : b < 0
  · rw [if_pos ha, if_pos hb] at h
    have htail : natToChars a.natAbs = natToChars b.natAbs := by
      injection h
    have := natToChars_inj _ _ htail
    omega
  · rw [if_pos ha, if_neg hb] at h
    have hmem : '-' ∈ natToChars b.toNat := by
      rw [← h]
      exact List.mem_cons_self _ _
    exact absurd rfl (natToChars_ne_dash _ _ hmem)
  · rw [if_neg ha, if_pos hb] at h
    have hmem : '-' ∈ natToChars a.toNat := by
      rw [h]
      exact List.mem_cons_self _ _
    exact absurd rfl (natToChars_ne_dash _ _ hmem)
  · rw [if_neg ha, if_neg hb] at h
    have := natToChars_inj _ _ h
    omega

theorem padStart2_length_of_month (m : ℤ) (h1 : 1 ≤ m) (h2 : m ≤ 12) :
    (padStart2 (intToChars m)).length = 2 := by
  interval_cases m <;> decide

theorem monthKey_inj (y1 m1 y2 m2 : ℤ) (h1a : 1 ≤ m1) (h1b : m1 ≤ 12)
    (h2a : 1 ≤ m2) (h2b : m2 ≤ 12) (h : monthKey y1 m1 = monthKey y2 m2) :
    y1 = y2 ∧ m1 = m2 := by
  have hc : monthKeyChars y1 m1 = monthKeyChars y2 m2 := by
    injection h
  unfold monthKeyChars at hc
  have hlen : ('-' :: padStart2 (intToChars m1)).length =
      ('-' :: padStart2 (intToChars m2)).length := by
    simp [padStart2_length_of_month m1 h1a h1b, padStart2_length_of_month m2 h2a h2b]
  obtain ⟨hpre, hsuf⟩ := List.append_inj' hc hlen
  refine ⟨intToChars_inj _ _ hpre, ?_⟩
  have hsuf' : padStart2 (intToChars m1) = padStart2 (intToChars m2) := by
    injection hsuf
  interval_cases m1 <;> interval_cases m2 <;>
    first
      | rfl
      | exact absurd hsuf' (by decide)

/-- Days-since-epoch to (fullYear, month 1..12): the standard
civil-from-days algorithm for the proleptic Gregorian calendar.  All
divisors are positive, so `/` (Euclidean division) is floor division,
matching the JS `Date` normalization. -/
def civilYM (day : ℤ) : ℤ × ℤ :=
  let z := day + 719468
  let era := z / 146097
  let doe := z - era * 146097
  let yoe := (doe - doe / 1460 + doe / 36524 - doe / 146096) / 365
  let y := yoe + era * 400
  let doy := doe - (365 * yoe + yoe / 4 - yoe / 100)
  let mp := (5 * doy + 2) / 153
  let m := if mp < 10 then mp + 3 else mp - 9
  (y + (if m ≤ 2 then 1 else 0), m)

/-- `getFullYear()` and `getMonth() + 1` of a millisecond timestamp
(modelled at UTC). -/
def ymOfMs (ms : ℤ) : ℤ × ℤ := civilYM (ms / 86400000)

/-- One "YYYY-MM" bucket of the monthly trend (the `income`/`expense`
fields of the JS object; a transaction with any other `type` string would
touch an unrelated property and leaves both fields unchanged). -/
structure Bucket where
  income : ℚ
  expense : ℚ
deriving DecidableEq

/-- `trend[key][t.type] += t.amount` restricted to the two fields. -/
def bucketAdd (type : String) (a : ℚ) (b : Bucket) : Bucket :=
  if type = "income" then { b with income := b.income + a }
  else if type = "expense" then { b with expense := b.expense + a }
  else b

/-- Update the value at a key when present (`if (trend[key]) ...`);
absent keys are silently ignored. -/
def objUpdate (k : String) (f : Bucket → Bucket) :
    List (String × Bucket) → List (String × Bucket)
  | [] => []
  | (k', v) :: rest =>
      if k' = k then (k', f v) :: rest else (k', v) :: objUpdate k f rest

/-- Key of the window month `i` steps before the current month, where
`a` is the absolute month index `year * 12 + month0` of the current
month: `new Date(y, m0 - i, 1)` normalizes to year `(a-i)/12` and
0-based month `(a-i)%12`. -/
def windowKey (a : ℤ) (i : ℕ) : String :=
  monthKey ((a - i) / 12) ((a - i) % 12 + 1)

/-- The "YYYY-MM" key of a transaction, from its stored date. -/
def txnKey (t : Transaction) : String :=
  monthKey (ymOfMs t.date).1 (ymOfMs t.date).2

/-- `getMonthlyTrend(months)`: initialize one zeroed bucket per month of
the trailing window (current month first), then fold the transactions,
adding each amount into the bucket at its key when that key exists. -/
def FinanceTracker.getMonthlyTrend (l : FinanceTracker) (now : ℤ) (months : ℤ) :
    List (String × Bucket) :=
  let y := (ymOfMs now).1
  let m1 := (ymOfMs now).2
  let a := y * 12 + (m1 - 1)
  let ini := (List.range months.toNat).foldl
    (fun tr i => objSet (windowKey a i) ⟨0, 0⟩ tr) []
  l.transactions.foldl
    (fun tr t => objUpdate (txnKey t) (bucketAdd t.type t.amount) tr) ini

theorem windowKey_inj (a : ℤ) (i j : ℕ) (h : windowKey a i = windowKey a j) :
    i = j := by
  unfold windowKey at h
  obtain ⟨hy, hm⟩ := monthKey_inj _ _ _ _
    (by omega) (by omega) (by omega) (by omega) h
  omega

theorem objSet_fresh (k : String) (v : Bucket) (m : List (String × Bucket))
    (h : ∀ p ∈ m, p.1 ≠ k) : objSet k v m = m ++ [(k, v)] := by
  induction m with
  | nil => rfl
  | cons p rest ih =>
      obtain ⟨k', v'⟩ := p
      have hk : k' ≠ k := h (k', v') (List.mem_cons_self _ _)
      simp only [objSet, hk, if_false, ite_false, List.cons_append, List.cons.injEq,
        true_and]
      exact ih (fun q hq => h q (List.mem_cons_of_mem _ hq))

theorem initWindow_eq (a : ℤ) (n : ℕ) :
    (List.range n).foldl (fun tr i => objSet (windowKey a i) ⟨0, 0⟩ tr) [] =
      (List.range n).map (fun i => (windowKey a i, (⟨0, 0⟩ : Bucket))) := by
  induction n with
  | zero => rfl
  | succ n ih =>
      rw [List.range_succ, List.foldl_append, ih, List.foldl_cons, List.foldl_nil,
        List.map_append, List.map_singleton]
      apply objSet_fresh
      intro p hp
      simp only [List.mem_map, List.mem_range] at hp
      obtain ⟨i, hi, rfl⟩ := hp
      intro hk
      exact absurd (windowKey_inj a i n hk) (by omega)

theorem map_if_id_of_no_key (k : String) (f : Bucket → Bucket)
    (m : List (String × Bucket)) (h : ∀ p ∈ m, p.1 ≠ k) :
    m.map (fun p => if p.1 = k then (p.1, f p.2) else p) = m := by
  induction m with
  | nil => rfl
  | cons p rest ih =>
      rw [List.map_cons, if_neg (h p (List.mem_cons_self _ _)),
        ih (fun q hq => h q (List.mem_cons_of_mem _ hq))]

theorem objUpdate_pointwise (k : String) (f : Bucket → Bucket)
    (m : List (String × Bucket)) (hnd : (m.map Prod.fst).Nodup) :
    objUpdate k f m = m.map (fun p => if p.1 = k then (p.1, f p.2) else p) := by
  induction m with
  | nil => rfl
  | cons p rest ih =>
      obtain ⟨k', v⟩ := p
      rw [List.map_cons, List.nodup_cons] at hnd
      by_cases hk : k' = k
      · subst hk
        simp only [objUpdate, if_pos rfl, ite_true, List.map_cons]
        have hnk : ∀ q ∈ rest, q.1 ≠ k' := by
          intro q hq hqk
          apply hnd.1
          have hq1 := List.mem_map_of_mem Prod.fst hq
          rw [hqk] at hq1
          exact hq1
        rw [map_if_id_of_no_key k' f rest hnk]
      · simp only [objUpdate, hk, if_false, ite_false, List.map_cons]
        rw [ih hnd.2]

theorem pointwise_keys (k : String) (f : Bucket → Bucket)
    (m : List (String × Bucket)) :
    (m.map (fun p => if p.1 = k then (p.1, f p.2) else p)).map Prod.fst =
      m.map Prod.fst := by
  rw [List.map_map]
  apply List.map_congr_left
  intro p _
  by_cases h : p.1 = k <;> simp [h]

theorem foldl_objUpdate_pointwise (ts : List Transaction) :
    ∀ m : List (String × Bucket), (m.map Prod.fst).Nodup →
    ts.foldl (fun tr t => objUpdate (txnKey t) (bucketAdd t.type t.amount) tr) m =
      m.map (fun p => (p.1, (ts.filter (fun t => txnKey t = p.1)).foldl
        (fun b t => bucketAdd t.type t.amount b) p.2)) := by
  induction ts with
  | nil =>
      intro m _
      simp
  | cons t rest ih =>
      intro m hm
      rw [List.foldl_cons, objUpdate_pointwise (txnKey t) _ m hm,
        ih _ (by rw [pointwise_keys]; exact hm), List.map_map]
      apply List.map_congr_left
      intro p _
      simp only [Function.comp_apply]
      by_cases hk : p.1 = txnKey t
      · rw [if_pos hk, List.filter_cons, if_pos (by simp [hk.symm])]
        rw [List.foldl_cons]
      · rw [if_neg hk, List.filter_cons,
          if_neg (by simp; intro hcon; exact hk hcon.symm)]

theorem foldl_bucketAdd (ts : List Transaction) : ∀ b : Bucket,
    ts.foldl (fun b t => bucketAdd t.type t.amount b) b =
      ⟨b.income + ((ts.filter (fun t => t.type = "income")).map (fun t => t.amount)).sum,
       b.expense + ((ts.filter (fun t => t.type = "expense")).map (fun t => t.amount)).sum⟩ := by
  induction ts with
  | nil =>
      intro b
      cases b
      simp
  | cons t rest ih =>
      intro b
      rw [List.foldl_cons, ih]
      by_cases h1 : t.type = "income"
      · have h2 : ¬ (t.type = "expense") := by simp [h1]
        have hfi : (t :: rest).filter (fun u => u.type = "income") =
            t :: rest.filter (fun u => u.type = "income") := by
          simp [List.filter_cons, h1]
        have hfe : (t :: rest).filter (fun u => u.type = "expense") =
            rest.filter (fun u => u.type = "expense") := by
          simp [List.filter_cons, h2]
        rw [hfi, hfe]
        unfold bucketAdd
        rw [if_pos h1]
        dsimp only
        rw [List.map_cons, List.sum_cons, Bucket.mk.injEq]
        constructor <;> ring
      · by_cases h2 : t.type = "expense"
        · have hfi : (t :: rest).filter (fun u => u.type = "income") =
              rest.filter (fun u => u.type = "income") := by
            simp [List.filter_cons, h1]
          have hfe : (t :: rest).filter (fun u => u.type = "expense") =
              t :: rest.filter (fun u => u.type = "expense") := by
            simp [List.filter_cons, h2]
          rw [hfi, hfe]
          unfold bucketAdd
          rw [if_neg h1, if_pos h2]
          dsimp only
          rw [List.map_cons, List.sum_cons, Bucket.mk.injEq]
          constructor <;> ring
        · have hfi : (t :: rest).filter (fun u => u.type = "income") =
              rest.filter (fun u => u.type = "income") := by
            simp [List.filter_cons, h1]
          have hfe : (t :: rest).filter (fun u => u.type = "expense") =
              rest.filter (fun u => u.type = "expense") := by
            simp [List.filter_cons, h2]
          rw [hfi, hfe]
          unfold bucketAdd
          rw [if_neg h1, if_neg h2]

theorem filter_key_type (ty : String) (key : String) (ts : List Transaction) :
    (ts.filter (fun t => txnKey t = key)).filter (fun t => t.type = ty) =
      ts.filter (fun t => t.type = ty ∧ txnKey t = key) := by
  induction ts with
  | nil => rfl
  | cons t rest ih =>
      by_cases h1 : txnKey t = key <;> by_cases h2 : t.type = ty <;>
        simp [List.filter_cons, h1, h2, ih]

theorem range_map_windowKey_nodup (a : ℤ) (n : ℕ) :
    ((List.range n).map (fun i => windowKey a i)).Nodup := by
  have hinj : Function.Injective (fun i : ℕ => windowKey a i) := by
    intro i j hij
    exact windowKey_inj a i j hij
  exact (List.nodup_range n).map hinj

/-- C8: `getMonthlyTrend(monthsBack)` returns exactly one "YYYY-MM" key
(zero-padded month, via `padStart(2, "0")`) per calendar month of the
trailing window of `monthsBack` months ending at the current month
(current month first, going backward, with pairwise-distinct keys); each
bucket holds the sums of the income and expense amounts of the
transactions whose year-month key equals that key; transactions dated
outside the window are silently ignored; and a zero or negative
`monthsBack` yields an empty mapping. -/
theorem C8_monthlyTrend_spec (l : FinanceTracker) (now : ℤ) (months : ℤ) :
    (months ≤ 0 → l.getMonthlyTrend now months = []) ∧
    l.getMonthlyTrend now months =
      (List.range months.toNat).map (fun i =>
        (windowKey ((ymOfMs now).1 * 12 + ((ymOfMs now).2 - 1)) i,
         (⟨((l.transactions.filter (fun t => t.type = "income" ∧
              txnKey t = windowKey ((ymOfMs now).1 * 12 + ((ymOfMs now).2 - 1)) i)).map
              (fun t => t.amount)).sum,
           ((l.transactions.filter (fun t => t.type = "expense" ∧
              txnKey t = windowKey ((ymOfMs now).1 * 12 + ((ymOfMs now).2 - 1)) i)).map
              (fun t => t.amount)).sum⟩ : Bucket))) ∧
    ((l.getMonthlyTrend now months).map Prod.fst).Nodup := by
  have hini := initWindow_eq ((ymOfMs now).1 * 12 + ((ymOfMs now).2 - 1)) months.toNat
  have hkeys : (((List.range months.toNat).map
      (fun i => (windowKey ((ymOfMs now).1 * 12 + ((ymOfMs now).2 - 1)) i,
        (⟨0, 0⟩ : Bucket)))).map Prod.fst).Nodup := by
    rw [List.map_map]
    exact range_map_windowKey_nodup _ _
  have hunfold : l.getMonthlyTrend now months =
      l.transactions.foldl
        (fun tr t => objUpdate (txnKey t) (bucketAdd t.type t.amount) tr)
        ((List.range months.toNat).foldl
          (fun tr i =>
            objSet (windowKey ((ymOfMs now).1 * 12 + ((ymOfMs now).2 - 1)) i) ⟨0, 0⟩ tr)
          []) := rfl
  have hmain : l.getMonthlyTrend now months =
      (List.range months.toNat).map (fun i =>
        (windowKey ((ymOfMs now).1 * 12 + ((ymOfMs now).2 - 1)) i,
         (⟨((l.transactions.filter (fun t => t.type = "income" ∧
              txnKey t = windowKey ((ymOfMs now).1 * 12 + ((ymOfMs now).2 - 1)) i)).map
              (fun t => t.amount)).sum,
           ((l.transactions.filter (fun t => t.type = "expense" ∧
              txnKey t = windowKey ((ymOfMs now).1 * 12 + ((ymOfMs now).2 - 1)) i)).map
              (fun t => t.amount)).sum⟩ : Bucket))) := by
    rw [hunfold, hini, foldl_objUpdate_pointwise l.transactions _ hkeys, List.map_map]
    apply List.map_congr_left
    intro i _
    simp only [Function.comp_apply]
    rw [foldl_bucketAdd, Prod.mk.injEq]
    refine ⟨rfl, ?_⟩
    rw [Bucket.mk.injEq]
    constructor
    · rw [filter_key_type "income" _ l.transactions, zero_add]
    · rw [filter_key_type "expense" _ l.transactions, zero_add]
  have hnodup : ((l.getMonthlyTrend now months).map Prod.fst).Nodup := by
    rw [hmain, List.map_map]
    exact range_map_windowKey_nodup _ _
  refine ⟨?_, hmain, hnodup⟩
  intro hm
  rw [hmain]
  have h0 : months.toNat = 0 := by omega
  rw [h0]
  rfl

/-- C8 witness: with `now` at epoch (1970-01) and a 2-month window, the
trend maps "1970-01" to income 5 / expense 3 and "1969-12" to expense 2,
ignoring a 1971 transaction; a negative window is empty. -/
theorem C8_monthlyTrend_spec_witness :
    (FinanceTracker.mk
      [⟨1, "income", 5, "a", "b", 0⟩, ⟨2, "expense", 3, "c", "d", 3600000⟩,
       ⟨3, "expense", 2, "e", "f", -86400000⟩, ⟨4, "income", 7, "g", "h", 31536000000⟩]
      5 []).getMonthlyTrend 0 2 =
      [("1970-01", (⟨5, 3⟩ : Bucket)), ("1969-12", (⟨0, 2⟩ : Bucket))] ∧
    (FinanceTracker.mk [] 1 []).getMonthlyTrend 0 (-3) = [] := by
  constructor
  · rw [(C8_monthlyTrend_spec (FinanceTracker.mk
      [⟨1, "income", 5, "a", "b", 0⟩, ⟨2, "expense", 3, "c", "d", 3600000⟩,
       ⟨3, "expense", 2, "e", "f", -86400000⟩, ⟨4, "income", 7, "g", "h", 31536000000⟩]
      5 []) 0 2).2.1]
    have hr : List.range (Int.toNat 2) = [0, 1] := by decide
    rw [hr]
    simp +decide only [List.map_cons, List.map_nil, List.filter_cons, List.filter_nil,
      List.sum_cons, List.sum_nil, add_zero, if_true, if_false, ite_true, ite_false]
  · exact (C8_monthlyTrend_spec (FinanceTracker.mk [] 1 []) 0 (-3)).1 (by norm_num)
